import Mathlib

/-!
A shallow embedding of the install/update workflow of `setup.pyw` from the
yw-table repository, together with theorems settling the frozen claims about
its specification.

The filesystem state that `install` manipulates is the listing of direct
entries of the installation root directory `{pywriterPath}yw_table`:
regular files (name, content) and subdirectories (name, flat tree of
relative-path/content pairs).  The source bundle (the installer's working
directory) provides the program file `yw_table.py`, the `locale/` tree and
the `sample/` configuration directory; each is `Option`-valued because the
corresponding copy primitive raises when the source is missing.
Environmental failures of the two best-effort primitives (`os.remove` on a
stale entry, `copyfile` of a sample configuration file) are modelled by
boolean oracles, since the Python code swallows or propagates them through
bare `try`/`except` blocks regardless of the precise OS error.
-/

namespace YwTable

/-- Character-list version of Python's substring test: does the second list
start with the first? -/
def leadsWith : List Char → List Char → Bool
  | [], _ => true
  | _ :: _, [] => false
  | a :: as, b :: bs => a == b && leadsWith as bs

/-- Does `sub` occur as a contiguous sublist of the second argument? -/
def subIn (sub : List Char) : List Char → Bool
  | [] => leadsWith sub []
  | c :: rest => leadsWith sub (c :: rest) || subIn sub rest

/-- Python's `sub in s` on strings: substring containment. -/
def hasSub (sub s : String) : Bool :=
  subIn sub.data s.data

/-- `APPNAME = 'yw_table'` (setup.pyw line 38). -/
def APPNAME : String := "yw_table"

/-- `APP = f'{APPNAME}.py'` (line 40). -/
def APP : String := APPNAME ++ ".py"

/-- `START_UP_SCRIPT = 'run.pyw'` (line 59). -/
def START_UP_SCRIPT : String := "run.pyw"

/-- `START_UP_CODE` (lines 60-62): the two fixed bootstrap lines. -/
def START_UP_CODE : String := "import " ++ APPNAME ++ "\n" ++ APPNAME ++ ".main()\n"

/-- An apostrophe, built from its code point to keep the source ASCII-plain. -/
def apos : String := String.singleton (Char.ofNat 39)

/-- `output(f'Removing "{file.name}"')` (line 112). -/
def removingMsg (n : String) : String := "Removing \"" ++ n ++ "\""

/-- `output(f'Copying "..."')` (lines 118, 122, 137). -/
def copyingMsg (n : String) : String := "Copying \"" ++ n ++ "\""

/-- `output(f'Keeping "{file.name}"')` (line 139). -/
def keepingMsg (n : String) : String := "Keeping \"" ++ n ++ "\""

/-- `Template(SUCCESS_MESSAGE).safe_substitute(mapping)` (lines 44-47, 144-145). -/
def SUCCESS_MESSAGE (installDir : String) : String :=
  "\n" ++ APPNAME ++ " is installed here:\n" ++ installDir ++ "/" ++ APP ++ "\n"

/-- `Template(SHORTCUT_MESSAGE).safe_substitute(mapping)` (lines 49-57, 149). -/
def SHORTCUT_MESSAGE (installDir : String) : String :=
  "\nNow you might want to create a shortcut on your desktop.  \n\nOn Windows, open the installation folder, hold down the Alt key on your keyboard, \nand then drag and drop \"run.pyw\" to your desktop.\n\nOn Linux, create a launcher on your desktop. With xfce for instance, the launcher"
    ++ apos ++ "s command may look like this:\npython3 " ++ apos ++ installDir ++ "/" ++ APP
    ++ apos ++ " %f\n"

/-- Stand-in for `str(ex)` of the `FileExistsError` raised by
`os.makedirs(cnfDir, exist_ok=True)` (line 103) when a regular file named
`config` occupies the path; the exact OS text is environment-dependent. -/
def configMakedirsFailMsg : String := "FileExistsError: config"

/-- Stand-in for `str(ex)` of the exception raised by
`copyfile(APP, ...)` (line 117); the exact OS text is environment-dependent. -/
def copyAppFailMsg : String := "copyfile failed: yw_table.py"

/-- Stand-in for `str(ex)` of the exception raised by
`copytree('locale', ...)` (line 121); the exact OS text is environment-dependent. -/
def copyLocaleFailMsg : String := "copytree failed: locale"

/-- Stand-in for `str(ex)` of the exception raised by
`open(f'{installDir}/{START_UP_SCRIPT}', 'w')` (line 156) when that path is a
directory; the exact OS text is environment-dependent. -/
def startupWriteFailMsg : String := "open failed: run.pyw"

/-- A direct entry of the installation root directory: a regular file with its
content, or a subdirectory with its (flattened) tree of files, each given by a
relative path and a content. -/
inductive Entry where
  | file (name : String) (content : String)
  | dir (name : String) (tree : List (String × String))
deriving DecidableEq

/-- The name of a direct entry. -/
def Entry.name : Entry → String
  | .file n _ => n
  | .dir n _ => n

/-- A file of the bundled `sample/` directory. -/
structure SampleFile where
  name : String
  content : String
deriving DecidableEq

/-- The source bundle in the installer's working directory.  `none` means the
corresponding source is missing, so the copy primitive that reads it raises. -/
structure Bundle where
  appContent : Option String
  localeTree : Option (List (String × String))
  sample : Option (List SampleFile)

/-- The host environment: the platform test of line 152, and oracles telling
whether `os.remove` on a given stale entry name (line 111) and `copyfile` of a
given sample file name (line 136) succeed, modelling environmental failures
that the source handles with bare `except` clauses. -/
structure Env where
  isWindows : Bool
  removeOk : String → Bool
  sampleCopyOk : String → Bool

/-- First-matching-file lookup among the direct entries: `os.path.isfile`
plus reading the content. -/
def fileContent : List Entry → String → Option String
  | [], _ => none
  | .file m c :: rest, n => if m == n then some c else fileContent rest n
  | .dir _ _ :: rest, n => fileContent rest n

/-- First-matching-directory lookup among the direct entries. -/
def dirTree : List Entry → String → Option (List (String × String))
  | [], _ => none
  | .dir m t :: rest, n => if m == n then some t else dirTree rest n
  | .file _ _ :: rest, n => dirTree rest n

/-- `os.path.isfile` on a direct entry name. -/
def hasFile (r : List Entry) (n : String) : Bool := (fileContent r n).isSome

/-- Is there a subdirectory of this name? -/
def hasDir (r : List Entry) (n : String) : Bool := (dirTree r n).isSome

/-- `os.path.exists` on a direct entry name. -/
def hasEntry (r : List Entry) (n : String) : Bool := hasFile r n || hasDir r n

/-- Lookup in a directory tree (first match), as `os.path.isfile` inside the
config directory plus reading the content. -/
def lookupTree : List (String × String) → String → Option String
  | [], _ => none
  | (m, c) :: rest, n => if m == n then some c else lookupTree rest n

/-- Per-entry effect of overwriting the regular file named `n` with content
`c`: directories and other files are untouched. -/
def setFun (n c : String) (e : Entry) : Entry :=
  match e with
  | .file m _ => if m == n then .file n c else e
  | .dir _ _ => e

/-- Writing a regular file: overwrite the content of every same-named file
entry, or create the entry when absent. -/
def setFile (r : List Entry) (n c : String) : List Entry :=
  if hasFile r n then r.map (setFun n c) else r ++ [.file n c]

/-- Per-entry effect of replacing the tree of the `config` subdirectory. -/
def cfgFun (t : List (String × String)) (e : Entry) : Entry :=
  match e with
  | .dir m _ => if m == "config" then .dir m t else e
  | .file _ _ => e

/-- Replace the tree of the `config` subdirectory. -/
def setConfigTree (r : List Entry) (t : List (String × String)) : List Entry :=
  r.map (cfgFun t)

/-- `os.makedirs(cnfDir, exist_ok=True)` (line 103), for the `config` part:
create the subdirectory when absent, keep it when present. -/
def ensureConfigDir (r : List Entry) : List Entry :=
  if hasDir r "config" then r else r ++ [.dir "config" []]

/-- `rmtree(f'{installDir}/locale', ignore_errors=True)` (line 106): delete
the `locale` subdirectory; errors (such as its absence, or the name denoting a
regular file) are ignored. -/
def rmLocale (r : List Entry) : List Entry :=
  r.filter fun e =>
    match e with
    | .dir m _ => !(m == "locale")
    | .file _ _ => true

/-- The purge loop of lines 107-114: scan the direct entries, skip every entry
whose name contains `config`, try `os.remove` on the rest and report each
successful removal.  `os.remove` raises on a directory, and any removal
failure is swallowed by the bare `except` (lines 113-114), so directories and
files whose removal fails are kept silently. -/
def purgeScan (ok : String → Bool) : List Entry → List Entry × List String
  | [] => ([], [])
  | .file n c :: rest =>
    let p := purgeScan ok rest
    if hasSub "config" n then (.file n c :: p.1, p.2)
    else if ok n then (p.1, removingMsg n :: p.2)
    else (.file n c :: p.1, p.2)
  | .dir n t :: rest =>
    let p := purgeScan ok rest
    (.dir n t :: p.1, p.2)

/-- State of the root after `makedirs` + `rmtree` + the purge loop
(lines 103-114). -/
def purgedRoot (ok : String → Bool) (r0 : List Entry) : List Entry :=
  (purgeScan ok (rmLocale (ensureConfigDir r0))).1

/-- Trace produced by the purge loop. -/
def purgedTrace (ok : String → Bool) (r0 : List Entry) : List String :=
  (purgeScan ok (rmLocale (ensureConfigDir r0))).2

/-- The config-seeding loop of lines 132-141, acting on the config tree and
the trace: for each sample file in order, keep an already-present same-named
config file (reporting `Keeping`), otherwise copy it (reporting `Copying`);
a copy failure raises out of the loop into the surrounding `except`, ending
the seeding with the state reached so far. -/
def seedLoop (ok : String → Bool) :
    List SampleFile → List (String × String) → List String →
      List (String × String) × List String
  | [], cfg, tr => (cfg, tr)
  | f :: rest, cfg, tr =>
    if (lookupTree cfg f.name).isSome then
      seedLoop ok rest cfg (tr ++ [keepingMsg f.name])
    else if ok f.name then
      seedLoop ok rest (cfg ++ [(f.name, f.content)]) (tr ++ [copyingMsg f.name])
    else (cfg, tr)

/-- The whole `try`/`except` around the seeding (lines 132-141): a missing
`sample/` directory makes `os.scandir` raise at once, which the `except`
turns into a no-op. -/
def seedResult (env : Env) (b : Bundle) (cfg : List (String × String))
    (tr : List String) : List (String × String) × List String :=
  match b.sample with
  | none => (cfg, tr)
  | some fs => seedLoop env.sampleCopyOk fs cfg tr

/-- Content written to the start-up script (lines 152-157): an interpreter
marker line on every platform but Windows, followed by the fixed bootstrap
code. -/
def startUpContent (isWindows : Bool) : String :=
  (if isWindows then "" else "#!/usr/bin/python3\n") ++ START_UP_CODE

/-- Result of running `install`: either normal completion or a propagating
exception carrying its message, together with the root state and the trace at
that point. -/
inductive Outcome where
  | ok (root : List Entry) (trace : List String)
  | err (msg : String) (root : List Entry) (trace : List String)
deriving DecidableEq

/-- Root state carried by an outcome. -/
def Outcome.root : Outcome → List Entry
  | .ok r _ => r
  | .err _ r _ => r

/-- Trace carried by an outcome. -/
def Outcome.trace : Outcome → List String
  | .ok _ t => t
  | .err _ _ t => t

/-- Did `install` run to completion? -/
def Outcome.isOk : Outcome → Bool
  | .ok _ _ => true
  | .err _ _ _ => false

/-- Root state after `copyfile(APP, ...)` and `copytree('locale', ...)`
succeed (lines 117 and 121): the program file is overwritten and a fresh
`locale` subdirectory holding the bundled tree is created. -/
def copiedRoot (root : List Entry) (appC : String)
    (lt : List (String × String)) : List Entry :=
  setFile root APP appC ++ [Entry.dir "locale" lt]

/-- Trace after the two copy reports of lines 118 and 122. -/
def copiedTrace (tr : List String) : List String :=
  (tr ++ [copyingMsg APP]) ++ [copyingMsg "locale"]

/-- Configuration tree and trace after the seeding of lines 131-141, which
reads and writes the files inside the `config` subdirectory. -/
def seededPair (env : Env) (b : Bundle) (root : List Entry) (appC : String)
    (lt : List (String × String)) (tr : List String) :
    List (String × String) × List String :=
  seedResult env b ((dirTree (copiedRoot root appC lt) "config").getD [])
    (copiedTrace tr)

/-- Root state after the seeding: the `config` subdirectory now holds the
seeded tree. -/
def afterSeedRoot (env : Env) (b : Bundle) (root : List Entry) (appC : String)
    (lt : List (String × String)) (tr : List String) : List Entry :=
  setConfigTree (copiedRoot root appC lt) (seededPair env b root appC lt tr).1

/-- Trace after the success message (line 145) and — only on a fresh
install — the shortcut message (lines 148-149). -/
def finalTrace (simpleUpdate : Bool) (installDir : String) (env : Env)
    (b : Bundle) (root : List Entry) (appC : String)
    (lt : List (String × String)) (tr : List String) : List String :=
  if simpleUpdate then
    (seededPair env b root appC lt tr).2 ++ [SUCCESS_MESSAGE installDir]
  else
    ((seededPair env b root appC lt tr).2 ++ [SUCCESS_MESSAGE installDir]) ++
      [SHORTCUT_MESSAGE installDir]

/-- Lines 116-157 of `install`: everything after the purge.  Copy the program
file (raising when the source is missing or the target name is a directory),
copy the locale tree (raising when the source is missing or the target name
exists), ignore the chmod step (pure permission state, best-effort), seed the
configuration files, report the success message and — on a fresh install —
the shortcut message, and finally write the start-up script (raising when
that name is a directory). -/
def continueInstall (simpleUpdate : Bool) (installDir : String) (env : Env)
    (b : Bundle) (root : List Entry) (tr : List String) : Outcome :=
  match b.appContent with
  | none => .err copyAppFailMsg root tr
  | some appC =>
    if hasDir root APP then .err copyAppFailMsg root tr
    else
      match b.localeTree with
      | none => .err copyLocaleFailMsg (setFile root APP appC) (tr ++ [copyingMsg APP])
      | some lt =>
        if hasEntry (setFile root APP appC) "locale" then
          .err copyLocaleFailMsg (setFile root APP appC) (tr ++ [copyingMsg APP])
        else
          if hasDir (afterSeedRoot env b root appC lt tr) START_UP_SCRIPT then
            .err startupWriteFailMsg (afterSeedRoot env b root appC lt tr)
              (finalTrace simpleUpdate installDir env b root appC lt tr)
          else
            .ok
              (setFile (afterSeedRoot env b root appC lt tr) START_UP_SCRIPT
                (startUpContent env.isWindows))
              (finalTrace simpleUpdate installDir env b root appC lt tr)

/-- The body of `install` (lines 92-157) with the update flag abstracted:
`os.makedirs(cnfDir, exist_ok=True)` raises when a regular file named
`config` occupies the path, then the purge runs, then the rest. -/
def installCore (simpleUpdate : Bool) (installDir : String) (env : Env)
    (b : Bundle) (root0 : List Entry) : Outcome :=
  if hasFile root0 "config" then .err configMakedirsFailMsg root0 []
  else
    continueInstall simpleUpdate installDir env b
      (purgedRoot env.removeOk root0) (purgedTrace env.removeOk root0)

/-- `install(pywriterPath)` (lines 92-157): the update flag is
`os.path.isfile(f'{installDir}/{APP}')` computed on the initial state
(lines 99-102), before any file operation. -/
def install (installDir : String) (env : Env) (b : Bundle)
    (root0 : List Entry) : Outcome :=
  installCore (hasFile root0 APP) installDir env b root0

/-- Final root and trace visible to the user. -/
structure RunResult where
  root : List Entry
  trace : List String
deriving DecidableEq

/-- The call site of `install` (lines 177-180): the single `try`/`except`
appends `str(ex)` of a propagating exception as the last trace entry and ends
the run. -/
def runInstaller (installDir : String) (env : Env) (b : Bundle)
    (root0 : List Entry) : RunResult :=
  match install installDir env b root0 with
  | .ok r t => ⟨r, t⟩
  | .err m r t => ⟨r, t ++ [m]⟩

/-- Lookup of a configuration file: content of the named file inside the
`config` subdirectory. -/
def configLookup (r : List Entry) (n : String) : Option String :=
  lookupTree ((dirTree r "config").getD []) n

/-- An environment with no environmental failures, on a non-Windows host. -/
def envIdeal : Env :=
  { isWindows := false, removeOk := fun _ => true, sampleCopyOk := fun _ => true }

/-- A complete demonstration bundle. -/
def demoBundle : Bundle :=
  { appContent := some "APPSRC"
    localeTree := some [("en.po", "LOC")]
    sample := some [⟨"config.ini", "INI"⟩] }

end YwTable

namespace YwTable

/-! ### Lookup and membership lemmas for the filesystem model -/

theorem lookupTree_append_some {cfg : List (String × String)} {n c : String}
    (h : lookupTree cfg n = some c) (l : List (String × String)) :
    lookupTree (cfg ++ l) n = some c := by
  induction cfg with
  | nil => simp [lookupTree] at h
  | cons p rest ih =>
    obtain ⟨m, d⟩ := p
    by_cases hm : m == n
    · simp only [lookupTree, hm, if_pos] at h ⊢
      simpa using h
    · simp only [lookupTree, hm] at h ⊢
      simp only [Bool.false_eq_true, if_false] at h ⊢
      exact ih h

theorem lookupTree_append_none {cfg : List (String × String)} {n : String}
    (h : lookupTree cfg n = none) (l : List (String × String)) :
    lookupTree (cfg ++ l) n = lookupTree l n := by
  induction cfg with
  | nil => simp
  | cons p rest ih =>
    obtain ⟨m, d⟩ := p
    by_cases hm : m == n
    · simp [lookupTree, hm] at h
    · simp only [lookupTree, hm, Bool.false_eq_true, if_false, List.cons_append] at h ⊢
      exact ih h

theorem dirTree_append_some {r : List Entry} {n : String} {t : List (String × String)}
    (h : dirTree r n = some t) (l : List Entry) :
    dirTree (r ++ l) n = some t := by
  induction r with
  | nil => simp [dirTree] at h
  | cons e rest ih =>
    cases e with
    | file m c =>
      simp only [dirTree, List.cons_append] at h ⊢
      exact ih h
    | dir m tr =>
      by_cases hm : m == n
      · simp only [dirTree, hm, if_pos, List.cons_append] at h ⊢
        simpa using h
      · simp only [dirTree, hm, Bool.false_eq_true, if_false, List.cons_append] at h ⊢
        exact ih h

theorem dirTree_append_none {r : List Entry} {n : String}
    (h : dirTree r n = none) (l : List Entry) :
    dirTree (r ++ l) n = dirTree l n := by
  induction r with
  | nil => simp
  | cons e rest ih =>
    cases e with
    | file m c =>
      simp only [dirTree, List.cons_append] at h ⊢
      exact ih h
    | dir m tr =>
      by_cases hm : m == n
      · simp [dirTree, hm] at h
      · simp only [dirTree, hm, Bool.false_eq_true, if_false, List.cons_append] at h ⊢
        exact ih h

theorem fileContent_append_some {r : List Entry} {n c : String}
    (h : fileContent r n = some c) (l : List Entry) :
    fileContent (r ++ l) n = some c := by
  induction r with
  | nil => simp [fileContent] at h
  | cons e rest ih =>
    cases e with
    | file m d =>
      by_cases hm : m == n
      · simp only [fileContent, hm, if_pos, List.cons_append] at h ⊢
        simpa using h
      · simp only [fileContent, hm, Bool.false_eq_true, if_false, List.cons_append] at h ⊢
        exact ih h
    | dir m tr =>
      simp only [fileContent, List.cons_append] at h ⊢
      exact ih h

theorem fileContent_append_none {r : List Entry} {n : String}
    (h : fileContent r n = none) (l : List Entry) :
    fileContent (r ++ l) n = fileContent l n := by
  induction r with
  | nil => simp
  | cons e rest ih =>
    cases e with
    | file m d =>
      by_cases hm : m == n
      · simp [fileContent, hm] at h
      · simp only [fileContent, hm, Bool.false_eq_true, if_false, List.cons_append] at h ⊢
        exact ih h
    | dir m tr =>
      simp only [fileContent, List.cons_append] at h ⊢
      exact ih h

theorem not_mem_of_fileContent_none {r : List Entry} {n : String}
    (h : fileContent r n = none) (c : String) : Entry.file n c ∉ r := by
  induction r with
  | nil => simp
  | cons e rest ih =>
    cases e with
    | file m d =>
      by_cases hm : m == n
      · simp [fileContent, hm] at h
      · simp only [fileContent, hm, Bool.false_eq_true, if_false] at h
        intro hmem
        rcases List.mem_cons.mp hmem with heq | hmem
        · cases heq; simp at hm
        · exact ih h hmem
    | dir m tr =>
      simp only [fileContent] at h
      intro hmem
      rcases List.mem_cons.mp hmem with heq | hmem
      · cases heq
      · exact ih h hmem

end YwTable

namespace YwTable

/-! ### Lemmas about the write operations -/

theorem dirTree_append_file (r : List Entry) (n c m : String) :
    dirTree (r ++ [Entry.file n c]) m = dirTree r m := by
  induction r with
  | nil => simp [dirTree]
  | cons e rest ih =>
    cases e with
    | file m' d => simpa [dirTree] using ih
    | dir m' t =>
      by_cases hm : m' = m
      · simp [dirTree, hm]
      · simp [dirTree, hm, ih]

theorem dirTree_map_setFun (n c m : String) : ∀ r : List Entry,
    dirTree (List.map (setFun n c) r) m = dirTree r m := by
  intro r
  induction r with
  | nil => rfl
  | cons e rest ih =>
    cases e with
    | file m' d =>
      by_cases hm : m' = n
      · simp [setFun, hm, dirTree, ih]
      · simp [setFun, hm, dirTree, ih]
    | dir m' t =>
      by_cases hm : m' = m
      · simp [setFun, dirTree, hm]
      · simp [setFun, dirTree, hm, ih]

theorem fileContent_map_setFun_self (n c : String) : ∀ r : List Entry,
    hasFile r n = true →
      fileContent (List.map (setFun n c) r) n = some c := by
  intro r
  induction r with
  | nil => intro h; simp [hasFile, fileContent] at h
  | cons e rest ih =>
    intro h
    cases e with
    | file m d =>
      by_cases hm : m = n
      · simp [setFun, hm, fileContent]
      · simp only [hasFile, fileContent] at h
        rw [if_neg (by simpa using hm)] at h
        simp only [List.map_cons, setFun]
        rw [if_neg (by simpa using hm)]
        simp only [fileContent]
        rw [if_neg (by simpa using hm)]
        exact ih h
    | dir m t =>
      simp only [hasFile, fileContent] at h
      simp [setFun, fileContent]
      exact ih h

theorem fileContent_setFile_self (r : List Entry) (n c : String) :
    fileContent (setFile r n c) n = some c := by
  unfold setFile
  by_cases h : hasFile r n
  · simp only [h, if_pos]
    exact fileContent_map_setFun_self n c r h
  · simp only [h, Bool.false_eq_true, if_false]
    have hnone : fileContent r n = none := by
      unfold hasFile at h
      cases hfc : fileContent r n with
      | none => rfl
      | some d => rw [hfc] at h; simp at h
    rw [fileContent_append_none hnone]
    simp [fileContent]

theorem dirTree_setFile (r : List Entry) (n c m : String) :
    dirTree (setFile r n c) m = dirTree r m := by
  unfold setFile
  by_cases h : hasFile r n
  · simp only [h, if_pos]
    exact dirTree_map_setFun n c m r
  · simp only [h, Bool.false_eq_true, if_false]
    exact dirTree_append_file r n c m

theorem dirTree_setConfig_self (r : List Entry) (t : List (String × String)) :
    dirTree (setConfigTree r t) "config" = (dirTree r "config").map fun _ => t := by
  induction r with
  | nil => simp [setConfigTree, dirTree]
  | cons e rest ih =>
    cases e with
    | file m c => simpa [setConfigTree, cfgFun, dirTree] using ih
    | dir m tr =>
      by_cases hm : m = "config"
      · simp [setConfigTree, cfgFun, hm, dirTree]
      · simpa [setConfigTree, cfgFun, hm, dirTree] using ih

theorem dirTree_setConfig_ne (r : List Entry) (t : List (String × String))
    (m : String) (h : ¬(m = "config")) :
    dirTree (setConfigTree r t) m = dirTree r m := by
  induction r with
  | nil => simp [setConfigTree, dirTree]
  | cons e rest ih =>
    cases e with
    | file m' c => simpa [setConfigTree, cfgFun, dirTree] using ih
    | dir m' tr =>
      by_cases hm : m' = "config"
      · subst hm
        have hne : ¬("config" = m) := fun hh => h hh.symm
        simp only [setConfigTree, List.map_cons, cfgFun]
        rw [if_pos (by simp)]
        simp only [dirTree]
        rw [if_neg (by simpa using hne), if_neg (by simpa using hne)]
        simpa [setConfigTree] using ih
      · by_cases hmm : m' = m
        · subst hmm
          simp only [setConfigTree, List.map_cons, cfgFun]
          rw [if_neg (by simpa using hm)]
          simp [dirTree]
        · simp only [setConfigTree, List.map_cons, cfgFun, dirTree]
          rw [if_neg (by simpa using hm)]
          simp only [dirTree]
          rw [if_neg (by simpa using hmm), if_neg (by simpa using hmm)]
          simpa [setConfigTree] using ih

theorem fileContent_setConfig (r : List Entry) (t : List (String × String)) (n : String) :
    fileContent (setConfigTree r t) n = fileContent r n := by
  induction r with
  | nil => simp [setConfigTree, fileContent]
  | cons e rest ih =>
    cases e with
    | file m c =>
      by_cases hm : m = n
      · simp [setConfigTree, cfgFun, fileContent, hm]
      · simp [setConfigTree, cfgFun, fileContent, hm]
        simpa [setConfigTree, cfgFun] using ih
    | dir m tr =>
      by_cases hm : m = "config"
      · simp [setConfigTree, cfgFun, fileContent, hm]
        simpa [setConfigTree, cfgFun] using ih
      · simp [setConfigTree, cfgFun, fileContent, hm]
        simpa [setConfigTree, cfgFun] using ih

end YwTable

namespace YwTable

/-! ### Lemmas about the purge phase -/

theorem dirTree_rmLocale_locale (r : List Entry) :
    dirTree (rmLocale r) "locale" = none := by
  induction r with
  | nil => simp [rmLocale, dirTree]
  | cons e rest ih =>
    cases e with
    | file m c => simpa [rmLocale, dirTree] using ih
    | dir m t =>
      by_cases hm : m = "locale"
      · simpa [rmLocale, hm] using ih
      · simp only [rmLocale, List.filter_cons]
        rw [if_pos (by simpa using hm)]
        simp only [dirTree]
        rw [if_neg (by simpa using hm)]
        simpa [rmLocale] using ih

theorem dirTree_rmLocale_ne (r : List Entry) (m : String) (h : ¬(m = "locale")) :
    dirTree (rmLocale r) m = dirTree r m := by
  induction r with
  | nil => simp [rmLocale]
  | cons e rest ih =>
    cases e with
    | file m' c => simpa [rmLocale, dirTree] using ih
    | dir m' t =>
      by_cases hm : m' = "locale"
      · subst hm
        have hne : ¬("locale" = m) := fun hh => h hh.symm
        simp only [rmLocale, List.filter_cons]
        rw [if_neg (by simp)]
        rw [show dirTree (Entry.dir "locale" t :: rest) m = dirTree rest m by
          simp only [dirTree]; rw [if_neg (by simpa using hne)]]
        simpa [rmLocale] using ih
      · simp only [rmLocale, List.filter_cons]
        rw [if_pos (by simpa using hm)]
        by_cases hmm : m' = m
        · simp [dirTree, hmm]
        · simp only [dirTree]
          rw [if_neg (by simpa using hmm), if_neg (by simpa using hmm)]
          simpa [rmLocale] using ih

theorem dirTree_purgeScan (ok : String → Bool) : ∀ (l : List Entry) (n : String),
    dirTree (purgeScan ok l).1 n = dirTree l n := by
  intro l n
  induction l with
  | nil => rfl
  | cons e rest ih =>
    cases e with
    | file m c =>
      by_cases hs : hasSub "config" m
      · simpa [purgeScan, hs, dirTree] using ih
      · by_cases hok : ok m
        · simpa [purgeScan, hs, hok, dirTree] using ih
        · simpa [purgeScan, hs, hok, dirTree] using ih
    | dir m t =>
      by_cases hm : m = n
      · simp [purgeScan, dirTree, hm]
      · simp only [purgeScan, dirTree]
        rw [if_neg (by simpa using hm), if_neg (by simpa using hm)]
        exact ih

theorem dirTree_ensureConfig (r : List Entry) :
    dirTree (ensureConfigDir r) "config" = some ((dirTree r "config").getD []) := by
  unfold ensureConfigDir
  by_cases h : hasDir r "config"
  · simp only [h, if_pos]
    unfold hasDir at h
    cases ht : dirTree r "config" with
    | none => rw [ht] at h; simp at h
    | some t => simp [ht]
  · simp only [h, Bool.false_eq_true, if_false]
    have hnone : dirTree r "config" = none := by
      unfold hasDir at h
      cases ht : dirTree r "config" with
      | none => rfl
      | some t => rw [ht] at h; simp at h
    rw [dirTree_append_none hnone]
    simp [hnone, dirTree]

theorem dirTree_purgedRoot_config (ok : String → Bool) (r0 : List Entry) :
    dirTree (purgedRoot ok r0) "config" = some ((dirTree r0 "config").getD []) := by
  unfold purgedRoot
  rw [dirTree_purgeScan, dirTree_rmLocale_ne _ _ (by decide), dirTree_ensureConfig]

theorem dir_mem_purgeScan (ok : String → Bool) (n : String)
    (t : List (String × String)) : ∀ l : List Entry,
    Entry.dir n t ∈ (purgeScan ok l).1 ↔ Entry.dir n t ∈ l := by
  intro l
  induction l with
  | nil => simp [purgeScan]
  | cons e rest ih =>
    cases e with
    | file m c =>
      by_cases hs : hasSub "config" m
      · simp [purgeScan, hs, ih]
      · by_cases hok : ok m
        · simp [purgeScan, hs, hok, ih]
        · simp [purgeScan, hs, hok, ih]
    | dir m tr =>
      simp [purgeScan, ih]

theorem file_mem_purgeScan (ok : String → Bool) (n c : String) : ∀ l : List Entry,
    Entry.file n c ∈ (purgeScan ok l).1 ↔
      Entry.file n c ∈ l ∧ (hasSub "config" n = true ∨ ok n = false) := by
  intro l
  induction l with
  | nil => simp [purgeScan]
  | cons e rest ih =>
    cases e with
    | file m d =>
      by_cases hs : hasSub "config" m
      · simp only [purgeScan, hs, if_pos, List.mem_cons, ih]
        constructor
        · rintro (heq | ⟨hmem, hcond⟩)
          · rw [heq]
            refine ⟨Or.inl rfl, Or.inl ?_⟩
            cases heq; exact hs
          · exact ⟨Or.inr hmem, hcond⟩
        · rintro ⟨heq | hmem, hcond⟩
          · exact Or.inl heq
          · exact Or.inr ⟨hmem, hcond⟩
      · by_cases hok : ok m
        · simp only [purgeScan, hs, Bool.false_eq_true, if_false, hok, if_pos,
            List.mem_cons, ih]
          constructor
          · rintro ⟨hmem, hcond⟩
            exact ⟨Or.inr hmem, hcond⟩
          · rintro ⟨heq | hmem, hcond⟩
            · exfalso
              cases heq
              rcases hcond with h1 | h1
              · rw [h1] at hs; exact hs rfl
              · rw [h1] at hok; exact Bool.false_ne_true hok
            · exact ⟨hmem, hcond⟩
        · simp only [purgeScan, hs, hok, Bool.false_eq_true, if_false, List.mem_cons, ih]
          constructor
          · rintro (heq | ⟨hmem, hcond⟩)
            · cases heq
              exact ⟨Or.inl rfl, Or.inr (by simpa using hok)⟩
            · exact ⟨Or.inr hmem, hcond⟩
          · rintro ⟨heq | hmem, hcond⟩
            · exact Or.inl heq
            · exact Or.inr ⟨hmem, hcond⟩
    | dir m tr =>
      simp [purgeScan, ih]

theorem dir_mem_rmLocale (r : List Entry) (n : String) (t : List (String × String)) :
    Entry.dir n t ∈ rmLocale r ↔ Entry.dir n t ∈ r ∧ ¬(n = "locale") := by
  induction r with
  | nil => simp [rmLocale]
  | cons e rest ih =>
    cases e with
    | file m c => simp [rmLocale, List.filter_cons, ih]
    | dir m tr =>
      by_cases hm : m = "locale"
      · subst hm
        simp only [rmLocale, List.filter_cons]
        rw [if_neg (by simp)]
        simp only [List.mem_cons]
        rw [show (rmLocale rest : List Entry) = List.filter _ rest from rfl] at ih
        constructor
        · intro hmem
          have := ih.mp hmem
          exact ⟨Or.inr this.1, this.2⟩
        · rintro ⟨heq | hmem, hne⟩
          · exfalso
            cases heq
            exact hne rfl
          · exact ih.mpr ⟨hmem, hne⟩
      · simp only [rmLocale, List.filter_cons]
        rw [if_pos (by simpa using hm)]
        simp only [List.mem_cons]
        constructor
        · rintro (heq | hmem)
          · cases heq
            exact ⟨Or.inl rfl, hm⟩
          · have := (ih.mp (by simpa [rmLocale] using hmem))
            exact ⟨Or.inr this.1, this.2⟩
        · rintro ⟨heq | hmem, hne⟩
          · exact Or.inl heq
          · exact Or.inr (by simpa [rmLocale] using ih.mpr ⟨hmem, hne⟩)

theorem file_mem_rmLocale (r : List Entry) (n c : String) :
    Entry.file n c ∈ rmLocale r ↔ Entry.file n c ∈ r := by
  induction r with
  | nil => simp [rmLocale]
  | cons e rest ih =>
    cases e with
    | file m d => simp [rmLocale, List.filter_cons, ih]
    | dir m t =>
      by_cases hm : m = "locale"
      · subst hm
        simp only [rmLocale, List.filter_cons]
        rw [if_neg (by simp)]
        simp only [List.mem_cons]
        constructor
        · intro hmem
          exact Or.inr ((by simpa [rmLocale] using ih.mp (by simpa [rmLocale] using hmem)))
        · rintro (heq | hmem)
          · exact absurd heq (by simp)
          · simpa [rmLocale] using ih.mpr hmem
      · simp only [rmLocale, List.filter_cons]
        rw [if_pos (by simpa using hm)]
        simp [ih]

theorem file_mem_ensureConfig (r : List Entry) (n c : String) :
    Entry.file n c ∈ ensureConfigDir r ↔ Entry.file n c ∈ r := by
  unfold ensureConfigDir
  by_cases h : hasDir r "config"
  · simp [h]
  · simp [h]

theorem dir_mem_ensureConfig_of (r : List Entry) (n : String)
    (t : List (String × String)) (h : Entry.dir n t ∈ r) :
    Entry.dir n t ∈ ensureConfigDir r := by
  unfold ensureConfigDir
  by_cases hd : hasDir r "config"
  · simpa [hd] using h
  · simp [hd, List.mem_append, h]

theorem hasFile_iff_exists (r : List Entry) (n : String) :
    hasFile r n = true ↔ ∃ c, Entry.file n c ∈ r := by
  induction r with
  | nil => simp [hasFile, fileContent]
  | cons e rest ih =>
    cases e with
    | file m d =>
      by_cases hm : m = n
      · subst hm
        constructor
        · intro _
          exact ⟨d, List.mem_cons_self _ _⟩
        · intro _
          simp [hasFile, fileContent]
      · simp only [hasFile, fileContent]
        rw [if_neg (by simpa using hm)]
        rw [show (fileContent rest n).isSome = hasFile rest n from rfl]
        rw [ih]
        constructor
        · rintro ⟨c, hc⟩
          exact ⟨c, List.mem_cons_of_mem _ hc⟩
        · rintro ⟨c, hc⟩
          rcases List.mem_cons.mp hc with heq | hmem
          · exfalso
            have : m = n := by cases heq; rfl
            exact hm this
          · exact ⟨c, hmem⟩
    | dir m t =>
      simp only [hasFile, fileContent]
      rw [show (fileContent rest n).isSome = hasFile rest n from rfl]
      rw [ih]
      constructor
      · rintro ⟨c, hc⟩
        exact ⟨c, List.mem_cons_of_mem _ hc⟩
      · rintro ⟨c, hc⟩
        rcases List.mem_cons.mp hc with heq | hmem
        · exact absurd heq (by simp)
        · exact ⟨c, hmem⟩

end YwTable

namespace YwTable

/-! ### Lemmas about the seeding loop -/

theorem lookupTree_single_ne (m d n : String) (h : ¬(m = n)) :
    lookupTree [(m, d)] n = none := by
  simp only [lookupTree]
  rw [if_neg (by simpa using h)]

theorem lookupTree_append_single_ne (cfg : List (String × String))
    (m d n : String) (h : ¬(m = n)) :
    lookupTree (cfg ++ [(m, d)]) n = lookupTree cfg n := by
  cases hc : lookupTree cfg n with
  | some c => exact lookupTree_append_some hc _
  | none => rw [lookupTree_append_none hc, lookupTree_single_ne m d n h]

theorem seedLoop_pres (ok : String → Bool) : ∀ (fs : List SampleFile)
    (cfg : List (String × String)) (tr : List String) (n c : String),
    lookupTree cfg n = some c → lookupTree (seedLoop ok fs cfg tr).1 n = some c := by
  intro fs
  induction fs with
  | nil =>
    intro cfg tr n c h
    simpa [seedLoop] using h
  | cons f rest ih =>
    intro cfg tr n c h
    by_cases hk : (lookupTree cfg f.name).isSome
    · simp only [seedLoop, hk, if_pos]
      exact ih _ _ _ _ h
    · by_cases hok : ok f.name
      · simp only [seedLoop, hk, Bool.false_eq_true, if_false, hok, if_pos]
        exact ih _ _ _ _ (lookupTree_append_some h _)
      · simpa [seedLoop, hk, hok] using h

theorem seedLoop_trace_ext (ok : String → Bool) : ∀ (fs : List SampleFile)
    (cfg : List (String × String)) (tr : List String),
    ∃ s, (seedLoop ok fs cfg tr).2 = tr ++ s := by
  intro fs
  induction fs with
  | nil => intro cfg tr; exact ⟨[], by simp [seedLoop]⟩
  | cons f rest ih =>
    intro cfg tr
    by_cases hk : (lookupTree cfg f.name).isSome
    · obtain ⟨s, hs⟩ := ih cfg (tr ++ [keepingMsg f.name])
      refine ⟨[keepingMsg f.name] ++ s, ?_⟩
      simp only [seedLoop, hk, if_pos, hs]
      simp
    · by_cases hok : ok f.name
      · obtain ⟨s, hs⟩ := ih (cfg ++ [(f.name, f.content)]) (tr ++ [copyingMsg f.name])
        refine ⟨[copyingMsg f.name] ++ s, ?_⟩
        simp only [seedLoop, hk, Bool.false_eq_true, if_false, hok, if_pos, hs]
        simp
      · exact ⟨[], by simp [seedLoop, hk, hok]⟩

theorem seedLoop_mem_spec (ok : String → Bool) : ∀ (fs : List SampleFile)
    (cfg : List (String × String)) (tr : List String) (f : SampleFile),
    (∀ g ∈ fs, ok g.name = true) →
    (fs.map SampleFile.name).Nodup →
    f ∈ fs →
    ((∀ c, lookupTree cfg f.name = some c →
        lookupTree (seedLoop ok fs cfg tr).1 f.name = some c ∧
        keepingMsg f.name ∈ (seedLoop ok fs cfg tr).2) ∧
     (lookupTree cfg f.name = none →
        lookupTree (seedLoop ok fs cfg tr).1 f.name = some f.content ∧
        copyingMsg f.name ∈ (seedLoop ok fs cfg tr).2)) := by
  intro fs
  induction fs with
  | nil =>
    intro cfg tr f _ _ hf
    exact absurd hf (by simp)
  | cons g rest ih =>
    intro cfg tr f hok hnd hf
    rcases List.mem_cons.mp hf with heq | hmem
    · subst heq
      constructor
      · intro c hc
        have hk : (lookupTree cfg f.name).isSome := by rw [hc]; rfl
        simp only [seedLoop, hk, if_pos]
        constructor
        · exact seedLoop_pres ok rest cfg _ f.name c hc
        · obtain ⟨s, hs⟩ := seedLoop_trace_ext ok rest cfg (tr ++ [keepingMsg f.name])
          rw [hs]
          simp
      · intro hc
        have hk : ¬(lookupTree cfg f.name).isSome := by rw [hc]; simp
        have hgok : ok f.name = true := hok f (List.mem_cons_self _ _)
        simp only [seedLoop, hk, Bool.false_eq_true, if_false, hgok, if_pos]
        constructor
        · refine seedLoop_pres ok rest _ _ f.name f.content ?_
          rw [lookupTree_append_none hc]
          simp [lookupTree]
        · obtain ⟨s, hs⟩ :=
            seedLoop_trace_ext ok rest (cfg ++ [(f.name, f.content)])
              (tr ++ [copyingMsg f.name])
          rw [hs]
          simp
    · have hgname : ¬(g.name = f.name) := by
        intro hgf
        have h1 : g.name ∉ rest.map SampleFile.name := by
          have := hnd
          simp only [List.map_cons, List.nodup_cons] at this
          exact this.1
        have h2 : f.name ∈ rest.map SampleFile.name :=
          List.mem_map_of_mem _ hmem
        rw [hgf] at h1
        exact h1 h2
      have hok' : ∀ x ∈ rest, ok x.name = true := fun x hx =>
        hok x (List.mem_cons_of_mem _ hx)
      have hnd' : (rest.map SampleFile.name).Nodup := by
        have := hnd
        simp only [List.map_cons, List.nodup_cons] at this
        exact this.2
      by_cases hk : (lookupTree cfg g.name).isSome
      · simp only [seedLoop, hk, if_pos]
        exact ih cfg _ f hok' hnd' hmem
      · have hgok : ok g.name = true := hok g (List.mem_cons_self _ _)
        simp only [seedLoop, hk, Bool.false_eq_true, if_false, hgok, if_pos]
        have hsame :
            lookupTree (cfg ++ [(g.name, g.content)]) f.name = lookupTree cfg f.name :=
          lookupTree_append_single_ne cfg g.name g.content f.name hgname
        constructor
        · intro c hc
          exact (ih _ _ f hok' hnd' hmem).1 c (by rw [hsame]; exact hc)
        · intro hc
          exact (ih _ _ f hok' hnd' hmem).2 (by rw [hsame]; exact hc)

theorem seedLoop_abort (ok : String → Bool) (f : SampleFile) (post : List SampleFile)
    (hfail : ok f.name = false) : ∀ (pre : List SampleFile)
    (cfg : List (String × String)) (tr : List String),
    (∀ g ∈ pre, ok g.name = true) →
    lookupTree cfg f.name = none →
    f.name ∉ pre.map SampleFile.name →
    seedLoop ok (pre ++ f :: post) cfg tr = seedLoop ok pre cfg tr := by
  intro pre
  induction pre with
  | nil =>
    intro cfg tr _ habs _
    have hk : ¬(lookupTree cfg f.name).isSome := by rw [habs]; simp
    simp [seedLoop, hk, hfail]
  | cons g rest ih =>
    intro cfg tr hok habs hfresh
    have hgname : ¬(g.name = f.name) := by
      intro hgf
      exact hfresh (by rw [← hgf]; simp)
    have hok' : ∀ x ∈ rest, ok x.name = true := fun x hx =>
      hok x (List.mem_cons_of_mem _ hx)
    have hfresh' : f.name ∉ rest.map SampleFile.name := by
      intro hx
      exact hfresh (by simp [hx])
    by_cases hk : (lookupTree cfg g.name).isSome
    · simp only [List.cons_append, seedLoop, hk, if_pos]
      exact ih cfg _ hok' habs hfresh'
    · have hgok : ok g.name = true := hok g (List.mem_cons_self _ _)
      simp only [List.cons_append, seedLoop, hk, Bool.false_eq_true, if_false,
        hgok, if_pos]
      have habs' : lookupTree (cfg ++ [(g.name, g.content)]) f.name = none := by
        rw [lookupTree_append_single_ne cfg g.name g.content f.name hgname]
        exact habs
      exact ih _ _ hok' habs' hfresh'

end YwTable

namespace YwTable

/-! ### Flag independence and success-case inversion -/

theorem finalTrace_flag (d : String) (env : Env) (b : Bundle) (root : List Entry)
    (appC : String) (lt : List (String × String)) (tr : List String) :
    finalTrace false d env b root appC lt tr =
      finalTrace true d env b root appC lt tr ++ [SHORTCUT_MESSAGE d] := rfl

theorem continueInstall_flag_root (su : Bool) (d : String) (env : Env) (b : Bundle)
    (r : List Entry) (tr : List String) :
    (continueInstall su d env b r tr).root = (continueInstall true d env b r tr).root := by
  unfold continueInstall
  split
  · rfl
  next appC happ =>
    split
    · rfl
    · split
      · rfl
      next lt hlt =>
        split
        · rfl
        · split
          · rfl
          · rfl

theorem continueInstall_flag_isOk (su : Bool) (d : String) (env : Env) (b : Bundle)
    (r : List Entry) (tr : List String) :
    (continueInstall su d env b r tr).isOk = (continueInstall true d env b r tr).isOk := by
  unfold continueInstall
  split
  · rfl
  next appC happ =>
    split
    · rfl
    · split
      · rfl
      next lt hlt =>
        split
        · rfl
        · split
          · rfl
          · rfl

theorem continueInstall_flag_trace (d : String) (env : Env) (b : Bundle)
    (r : List Entry) (tr : List String) :
    (continueInstall false d env b r tr).trace = (continueInstall true d env b r tr).trace ∨
      (continueInstall false d env b r tr).trace =
        (continueInstall true d env b r tr).trace ++ [SHORTCUT_MESSAGE d] := by
  unfold continueInstall
  split
  · exact Or.inl rfl
  next appC happ =>
    split
    · exact Or.inl rfl
    · split
      · exact Or.inl rfl
      next lt hlt =>
        split
        · exact Or.inl rfl
        · split
          · exact Or.inr (finalTrace_flag d env b r appC lt tr)
          · exact Or.inr (finalTrace_flag d env b r appC lt tr)

theorem installCore_of_no_config_file (su : Bool) (d : String) (env : Env)
    (b : Bundle) (r0 : List Entry) (h : hasFile r0 "config" = false) :
    installCore su d env b r0 =
      continueInstall su d env b (purgedRoot env.removeOk r0)
        (purgedTrace env.removeOk r0) := by
  simp [installCore, h]

theorem installCore_ok_char {su : Bool} {d : String} {env : Env} {b : Bundle}
    {r0 root' : List Entry} {tr' : List String}
    (h : installCore su d env b r0 = .ok root' tr') :
    ∃ appC lt,
      b.appContent = some appC ∧
      b.localeTree = some lt ∧
      hasFile r0 "config" = false ∧
      hasDir (purgedRoot env.removeOk r0) APP = false ∧
      hasEntry (setFile (purgedRoot env.removeOk r0) APP appC) "locale" = false ∧
      hasDir (afterSeedRoot env b (purgedRoot env.removeOk r0) appC lt
          (purgedTrace env.removeOk r0)) START_UP_SCRIPT = false ∧
      root' =
        setFile
          (afterSeedRoot env b (purgedRoot env.removeOk r0) appC lt
            (purgedTrace env.removeOk r0))
          START_UP_SCRIPT (startUpContent env.isWindows) ∧
      tr' = finalTrace su d env b (purgedRoot env.removeOk r0) appC lt
          (purgedTrace env.removeOk r0) := by
  unfold installCore at h
  by_cases hcfg : hasFile r0 "config"
  · rw [if_pos hcfg] at h
    simp at h
  · rw [if_neg (by simpa using hcfg)] at h
    unfold continueInstall at h
    split at h
    · simp at h
    next appC happ =>
      by_cases h1 : hasDir (purgedRoot env.removeOk r0) APP
      · rw [if_pos h1] at h
        simp at h
      · rw [if_neg (by simpa using h1)] at h
        split at h
        · simp at h
        next lt hlt =>
          by_cases h2 :
            hasEntry (setFile (purgedRoot env.removeOk r0) APP appC) "locale"
          · rw [if_pos h2] at h
            simp at h
          · rw [if_neg (by simpa using h2)] at h
            by_cases h3 :
              hasDir (afterSeedRoot env b (purgedRoot env.removeOk r0) appC lt
                (purgedTrace env.removeOk r0)) START_UP_SCRIPT
            · rw [if_pos h3] at h
              simp at h
            · rw [if_neg (by simpa using h3)] at h
              injection h with h4 h5
              exact ⟨appC, lt, happ, hlt, by simpa using hcfg, by simpa using h1,
                by simpa using h2, by simpa using h3, h4.symm, h5.symm⟩

end YwTable

namespace YwTable

/-! ### Transport lemmas and config preservation along the pipeline -/

theorem fileContent_append_dir (r : List Entry) (dn : String)
    (dt : List (String × String)) (m : String) :
    fileContent (r ++ [Entry.dir dn dt]) m = fileContent r m := by
  cases hd : fileContent r m with
  | some c => exact fileContent_append_some hd _
  | none =>
    rw [fileContent_append_none hd]
    simp [fileContent]

theorem dirTree_append_dir_ne (r : List Entry) (dn : String)
    (dt : List (String × String)) (m : String) (h : ¬(dn = m)) :
    dirTree (r ++ [Entry.dir dn dt]) m = dirTree r m := by
  cases hd : dirTree r m with
  | some t => exact dirTree_append_some hd _
  | none =>
    rw [dirTree_append_none hd]
    simp only [dirTree]
    rw [if_neg (by simpa using h)]

theorem fileContent_map_setFun_ne (n c m : String) (h : ¬(m = n)) :
    ∀ r : List Entry,
      fileContent (List.map (setFun n c) r) m = fileContent r m := by
  intro r
  induction r with
  | nil => rfl
  | cons e rest ih =>
    cases e with
    | file m' d =>
      by_cases hm : m' = n
      · subst hm
        have hmn : ¬(m' = m) := fun hh => h hh.symm
        simp only [List.map_cons, setFun]
        rw [if_pos (by simp)]
        simp only [fileContent]
        rw [if_neg (by simpa using hmn), if_neg (by simpa using hmn)]
        exact ih
      · simp only [List.map_cons, setFun]
        rw [if_neg (by simpa using hm)]
        by_cases hmm : m' = m
        · subst hmm
          simp [fileContent]
        · simp only [fileContent]
          rw [if_neg (by simpa using hmm), if_neg (by simpa using hmm)]
          exact ih
    | dir m' t =>
      simp only [List.map_cons, setFun, fileContent]
      exact ih

theorem fileContent_setFile_ne (r : List Entry) (n c m : String) (h : ¬(m = n)) :
    fileContent (setFile r n c) m = fileContent r m := by
  unfold setFile
  by_cases hf : hasFile r n
  · simp only [hf, if_pos]
    exact fileContent_map_setFun_ne n c m h r
  · simp only [hf, Bool.false_eq_true, if_false]
    cases hd : fileContent r m with
    | some d => exact fileContent_append_some hd _
    | none =>
      rw [fileContent_append_none hd]
      simp only [fileContent]
      rw [if_neg (by simpa using fun hh : n = m => h hh.symm)]

theorem runInstaller_root (d : String) (env : Env) (b : Bundle) (r0 : List Entry) :
    (runInstaller d env b r0).root = (install d env b r0).root := by
  unfold runInstaller
  cases hi : install d env b r0 <;> rfl

theorem seededPair_lookup_pres (env : Env) (b : Bundle) (r : List Entry)
    (appC : String) (lt : List (String × String)) (tr : List String)
    (t : List (String × String)) (n c : String)
    (htc : dirTree (copiedRoot r appC lt) "config" = some t)
    (htl : lookupTree t n = some c) :
    lookupTree (seededPair env b r appC lt tr).1 n = some c := by
  unfold seededPair
  rw [htc]
  simp only [Option.getD_some]
  unfold seedResult
  cases b.sample with
  | none => exact htl
  | some fs => exact seedLoop_pres _ fs _ _ n c htl

theorem afterSeedRoot_config_pres (env : Env) (b : Bundle) (r : List Entry)
    (appC : String) (lt : List (String × String)) (tr : List String)
    (t : List (String × String)) (n c : String)
    (ht : dirTree r "config" = some t)
    (htl : lookupTree t n = some c) :
    configLookup (afterSeedRoot env b r appC lt tr) n = some c := by
  have htc : dirTree (copiedRoot r appC lt) "config" = some t := by
    unfold copiedRoot
    refine dirTree_append_some ?_ _
    rw [dirTree_setFile]
    exact ht
  unfold afterSeedRoot configLookup
  rw [dirTree_setConfig_self, htc]
  simp only [Option.map_some', Option.getD_some]
  exact seededPair_lookup_pres env b r appC lt tr t n c htc htl

theorem continueInstall_config_pres (su : Bool) (d : String) (env : Env) (b : Bundle)
    (r : List Entry) (tr : List String) (n c : String)
    (hr : configLookup r n = some c) :
    configLookup (continueInstall su d env b r tr).root n = some c := by
  have hdir : ∃ t, dirTree r "config" = some t ∧ lookupTree t n = some c := by
    unfold configLookup at hr
    cases hd : dirTree r "config" with
    | none => rw [hd] at hr; simp [lookupTree] at hr
    | some t => rw [hd] at hr; exact ⟨t, rfl, by simpa using hr⟩
  obtain ⟨t, ht, htl⟩ := hdir
  unfold continueInstall
  split
  · exact hr
  next appC happ =>
    by_cases h1 : hasDir r APP
    · rw [if_pos h1]
      exact hr
    · rw [if_neg (by simpa using h1)]
      have ht1 : dirTree (setFile r APP appC) "config" = some t := by
        rw [dirTree_setFile]; exact ht
      have hr1 : configLookup (setFile r APP appC) n = some c := by
        unfold configLookup; rw [ht1]; exact htl
      split
      · exact hr1
      next lt hlt =>
        by_cases h2 : hasEntry (setFile r APP appC) "locale"
        · rw [if_pos h2]
          exact hr1
        · rw [if_neg (by simpa using h2)]
          have hroot3 := afterSeedRoot_config_pres env b r appC lt tr t n c ht htl
          by_cases h3 : hasDir (afterSeedRoot env b r appC lt tr) START_UP_SCRIPT
          · rw [if_pos h3]
            exact hroot3
          · rw [if_neg (by simpa using h3)]
            show configLookup
              (setFile (afterSeedRoot env b r appC lt tr) START_UP_SCRIPT
                (startUpContent env.isWindows)) n = some c
            unfold configLookup at hroot3 ⊢
            rw [dirTree_setFile]
            exact hroot3

theorem install_config_pres (d : String) (env : Env) (b : Bundle) (r0 : List Entry)
    (n c : String) (h : configLookup r0 n = some c) :
    configLookup (install d env b r0).root n = some c := by
  unfold install installCore
  by_cases hcfg : hasFile r0 "config"
  · rw [if_pos hcfg]
    exact h
  · rw [if_neg (by simpa using hcfg)]
    refine continueInstall_config_pres _ _ _ _ _ _ _ _ ?_
    unfold configLookup
    rw [dirTree_purgedRoot_config]
    simpa [configLookup] using h

theorem continueInstall_sample_congr (su : Bool) (d : String) (env : Env)
    (b1 b2 : Bundle) (r : List Entry) (tr : List String)
    (happ : b1.appContent = b2.appContent)
    (hlt : b1.localeTree = b2.localeTree)
    (hseed : ∀ tr2, seedResult env b1 ((dirTree r "config").getD []) tr2 =
        seedResult env b2 ((dirTree r "config").getD []) tr2) :
    continueInstall su d env b1 r tr = continueInstall su d env b2 r tr := by
  have hseedPair : ∀ appC lt,
      seededPair env b1 r appC lt tr = seededPair env b2 r appC lt tr := by
    intro appC lt
    unfold seededPair
    have hcfgX : (dirTree (copiedRoot r appC lt) "config").getD [] =
        (dirTree r "config").getD [] := by
      unfold copiedRoot
      rw [dirTree_append_dir_ne _ "locale" lt "config" (by decide), dirTree_setFile]
    rw [hcfgX]
    exact hseed _
  have hasr : ∀ appC lt,
      afterSeedRoot env b1 r appC lt tr = afterSeedRoot env b2 r appC lt tr := by
    intro appC lt
    unfold afterSeedRoot
    rw [hseedPair appC lt]
  have hft : ∀ appC lt,
      finalTrace su d env b1 r appC lt tr = finalTrace su d env b2 r appC lt tr := by
    intro appC lt
    unfold finalTrace
    rw [hseedPair appC lt]
  unfold continueInstall
  rw [happ, hlt]
  split
  · rfl
  next appC happ2 =>
    split
    · rfl
    · split
      · rfl
      next lt hlt2 =>
        split
        · rfl
        · rw [hasr appC lt, hft appC lt]

end YwTable

namespace YwTable

/-! ### Remaining membership lemmas -/

theorem hasDir_false_dirTree {r : List Entry} {n : String}
    (h : hasDir r n = false) : dirTree r n = none := by
  unfold hasDir at h
  cases ht : dirTree r n with
  | none => rfl
  | some t => rw [ht] at h; simp at h

theorem file_mem_append_dir (r : List Entry) (dn : String)
    (dt : List (String × String)) (m d2 : String) :
    Entry.file m d2 ∈ r ++ [Entry.dir dn dt] ↔ Entry.file m d2 ∈ r := by
  simp [List.mem_append]

theorem file_mem_setConfig (r : List Entry) (t : List (String × String))
    (m d2 : String) :
    Entry.file m d2 ∈ setConfigTree r t ↔ Entry.file m d2 ∈ r := by
  unfold setConfigTree
  constructor
  · intro h
    obtain ⟨e, he, hbe⟩ := List.mem_map.mp h
    cases e with
    | file m' c' =>
      have : Entry.file m' c' = Entry.file m d2 := by simpa [cfgFun] using hbe
      rw [← this]
      exact he
    | dir m' t' =>
      exfalso
      by_cases hm : m' = "config"
      · subst hm
        simp [cfgFun] at hbe
      · rw [show cfgFun t (Entry.dir m' t') = Entry.dir m' t' by
          simp only [cfgFun]; rw [if_neg (by simpa using hm)]] at hbe
        simp at hbe
  · intro h
    refine List.mem_map.mpr ⟨Entry.file m d2, h, ?_⟩
    simp [cfgFun]

theorem file_mem_setFile (r : List Entry) (n c m d2 : String)
    (h : Entry.file m d2 ∈ setFile r n c) :
    (m = n ∧ d2 = c) ∨ (Entry.file m d2 ∈ r ∧ ¬(m = n)) := by
  unfold setFile at h
  by_cases hf : hasFile r n
  · rw [if_pos hf] at h
    obtain ⟨e, he, hbe⟩ := List.mem_map.mp h
    cases e with
    | file m' c' =>
      by_cases hm : m' = n
      · subst hm
        rw [show setFun m' c (Entry.file m' c') = Entry.file m' c by
          simp [setFun]] at hbe
        have h1 : m' = m := by cases hbe; rfl
        have h2 : c = d2 := by cases hbe; rfl
        exact Or.inl ⟨h1.symm, h2.symm⟩
      · rw [show setFun n c (Entry.file m' c') = Entry.file m' c' by
          simp only [setFun]; rw [if_neg (by simpa using hm)]] at hbe
        have h1 : m' = m := by cases hbe; rfl
        have h2 : c' = d2 := by cases hbe; rfl
        rw [h1, h2] at he
        exact Or.inr ⟨he, by rw [← h1]; exact hm⟩
    | dir m' t' =>
      exfalso
      rw [show setFun n c (Entry.dir m' t') = Entry.dir m' t' from rfl] at hbe
      simp at hbe
  · rw [if_neg hf] at h
    rcases List.mem_append.mp h with hmem | hone
    · refine Or.inr ⟨hmem, ?_⟩
      intro hmn
      subst hmn
      have : hasFile r m = true :=
        (hasFile_iff_exists r m).mpr ⟨d2, hmem⟩
      exact hf this
    · left
      have : Entry.file m d2 = Entry.file n c := by simpa using hone
      exact ⟨by cases this; rfl, by cases this; rfl⟩

end YwTable

namespace YwTable

/-! ### Concrete data used by witnesses and counterexamples -/

/-- A stale installation root left by a previous version: a subdirectory and a
regular file, neither matching the `config` marker. -/
def staleRoot : List Entry :=
  [Entry.dir "olddata" [("x.py", "old")], Entry.file "oldmodule.py" "stale"]

/-- An installation root holding one pre-existing user configuration file. -/
def demoCfgRoot : List Entry := [Entry.dir "config" [("user.ini", "USR")]]

/-- A bundle whose program file is missing, so `copyfile(APP, ...)` raises. -/
def bundleNoApp : Bundle :=
  { appContent := none, localeTree := some [("en.po", "LOC")], sample := none }

/-- An environment whose sample-copy primitive fails on one file name. -/
def envBadSample : Env :=
  { isWindows := false, removeOk := fun _ => true
    sampleCopyOk := fun n => !(n == "bad.ini") }

/-- A bundle whose sample directory holds a good file, a file whose copy
fails, and a file after the failure. -/
def bundleBadSample : Bundle :=
  { appContent := some "A", localeTree := some []
    sample := some [⟨"a.ini", "A1"⟩, ⟨"bad.ini", "B"⟩, ⟨"c.ini", "C"⟩] }

end YwTable

namespace YwTable

/-! ### The claims -/

/-- Claim C1: config preservation — every file that exists under
ConfigDirectory (`{installDir}/config/`) before a run of `install` still
exists with unchanged content after that run, whether the run completes or
ends in the top-level handler: the purge skips every entry whose name
contains `config`, and the seeding copies a sample file only when no file of
that name is present. -/
theorem claim_C1 (d : String) (env : Env) (b : Bundle) (r0 : List Entry)
    (n c : String) (h : configLookup r0 n = some c) :
    configLookup (runInstaller d env b r0).root n = some c := by
  rw [runInstaller_root]
  exact install_config_pres d env b r0 n c h

/-- Witness for C1 at a concrete pre-existing configuration file. -/
theorem claim_C1_witness :
    configLookup demoCfgRoot "user.ini" = some "USR" ∧
    configLookup (runInstaller "I" envIdeal demoBundle demoCfgRoot).root
      "user.ini" = some "USR" :=
  ⟨by decide, claim_C1 "I" envIdeal demoBundle demoCfgRoot "user.ini" "USR" (by decide)⟩

/-- Claim C3: if the copy of ProgramFile or of LocaleTree raises, `install`
performs no further step, the exception propagates to the single try/except
at the call site, its message becomes the last entry of the trace, the run
ends with no retry, and every ConfigDirectory file that existed before the
run is unchanged. -/
theorem claim_C3 (d : String) (env : Env) (b : Bundle) (r0 : List Entry)
    (hcfg : hasFile r0 "config" = false) :
    (b.appContent = none →
        runInstaller d env b r0 =
          ⟨purgedRoot env.removeOk r0,
            purgedTrace env.removeOk r0 ++ [copyAppFailMsg]⟩) ∧
    (∀ a, b.appContent = some a → b.localeTree = none →
        hasDir (purgedRoot env.removeOk r0) APP = false →
        runInstaller d env b r0 =
          ⟨setFile (purgedRoot env.removeOk r0) APP a,
            (purgedTrace env.removeOk r0 ++ [copyingMsg APP]) ++
              [copyLocaleFailMsg]⟩) ∧
    (∀ n c, configLookup r0 n = some c →
        configLookup (runInstaller d env b r0).root n = some c) := by
  refine ⟨?_, ?_, ?_⟩
  · intro happ
    simp [runInstaller, install, installCore, continueInstall, hcfg, happ]
  · intro a happ hlt h1
    simp [runInstaller, install, installCore, continueInstall, hcfg, happ, hlt, h1]
  · intro n c hc
    rw [runInstaller_root]
    exact install_config_pres d env b r0 n c hc

/-- Witness for C3: a bundle with a missing program file makes the run end
with the copy failure message as the last trace entry. -/
theorem claim_C3_witness :
    runInstaller "I" envIdeal bundleNoApp [] =
      ⟨purgedRoot envIdeal.removeOk [],
        purgedTrace envIdeal.removeOk [] ++ [copyAppFailMsg]⟩ :=
  (claim_C3 "I" envIdeal bundleNoApp [] (by decide)).1 rfl

/-- Claim C5: every run of `install` that reaches its final step overwrites
`{installDir}/run.pyw` entirely, in both modes; on Windows the content starts
directly with the two fixed bootstrap lines, and on every other platform it
is exactly the interpreter marker line followed by those two lines. -/
theorem claim_C5 (d : String) (env : Env) (b : Bundle) (r0 root' : List Entry)
    (tr' : List String) (h : install d env b r0 = .ok root' tr') :
    fileContent root' START_UP_SCRIPT =
      some ((if env.isWindows then "" else "#!/usr/bin/python3\n") ++ START_UP_CODE) ∧
    START_UP_CODE = "import yw_table\nyw_table.main()\n" := by
  have h' : installCore (hasFile r0 APP) d env b r0 = .ok root' tr' := h
  obtain ⟨appC, lt, happ, hlt, hcfg, h1, h2, h3, hroot, htr⟩ := installCore_ok_char h'
  subst hroot
  constructor
  · rw [fileContent_setFile_self]
    rfl
  · rfl

/-- Witness for C5 on a concrete successful fresh install. -/
theorem claim_C5_witness :
    fileContent (install "I" envIdeal demoBundle []).root START_UP_SCRIPT =
      some ((if envIdeal.isWindows then "" else "#!/usr/bin/python3\n") ++
        START_UP_CODE) :=
  (claim_C5 "I" envIdeal demoBundle [] (install "I" envIdeal demoBundle []).root
    (install "I" envIdeal demoBundle []).trace (by rfl)).1

/-- Claim C7: `install` first deletes the `{installDir}/locale` subtree
entirely, succeeding as a no-op when it is absent; it then enumerates every
direct entry of InstallationRoot and removes exactly those regular-file
entries whose name does not contain the substring `config` and whose removal
succeeds; a failure to remove an individual entry (a directory, or a file the
oracle rejects) is swallowed and aborts neither the purge nor the run. -/
theorem claim_C7 (ok : String → Bool) (r r0 : List Entry) (su : Bool)
    (d : String) (env : Env) (b : Bundle) :
    ((∀ t, Entry.dir "locale" t ∉ r) → rmLocale r = r) ∧
    (∀ t, Entry.dir "locale" t ∉ rmLocale r) ∧
    (∀ n c, Entry.file n c ∈ (purgeScan ok r).1 ↔
        Entry.file n c ∈ r ∧ (hasSub "config" n = true ∨ ok n = false)) ∧
    (∀ n t, Entry.dir n t ∈ (purgeScan ok r).1 ↔ Entry.dir n t ∈ r) ∧
    (hasFile r0 "config" = false →
        installCore su d env b r0 =
          continueInstall su d env b (purgedRoot env.removeOk r0)
            (purgedTrace env.removeOk r0)) := by
  refine ⟨?_, ?_, fun n c => file_mem_purgeScan ok n c r,
    fun n t => dir_mem_purgeScan ok n t r,
    fun h => installCore_of_no_config_file su d env b r0 h⟩
  · intro hnot
    unfold rmLocale
    rw [List.filter_eq_self]
    intro e he
    cases e with
    | file m c => rfl
    | dir m t =>
      by_cases hm : m = "locale"
      · subst hm
        exact absurd he (hnot t)
      · simpa using hm
  · intro t hmem
    rw [dir_mem_rmLocale] at hmem
    exact hmem.2 rfl

/-- Witness for C7: the rmtree no-op on a locale-free root, and the purge
feeding directly into the rest of the run. -/
theorem claim_C7_witness :
    rmLocale [Entry.file "a.txt" "A"] = [Entry.file "a.txt" "A"] ∧
    installCore false "I" envIdeal demoBundle [] =
      continueInstall false "I" envIdeal demoBundle
        (purgedRoot envIdeal.removeOk []) (purgedTrace envIdeal.removeOk []) :=
  ⟨(claim_C7 (fun _ => true) [Entry.file "a.txt" "A"] [] false "I" envIdeal
      demoBundle).1 (by simp),
    (claim_C7 (fun _ => true) [] [] false "I" envIdeal demoBundle).2.2.2.2
      (by decide)⟩

/-- Claim C9 (implicit): the purge never deletes a direct entry of
InstallationRoot that is a directory, other than the separately deleted
`locale` subtree — `os.remove` is a regular-file removal primitive whose
failure on a directory is swallowed — so every stale subdirectory from a
previous version (and the `config` directory itself) still exists after the
purge. -/
theorem claim_C9 (ok : String → Bool) (l r0 : List Entry) :
    (∀ n t, Entry.dir n t ∈ l → Entry.dir n t ∈ (purgeScan ok l).1) ∧
    (∀ n t, ¬(n = "locale") → Entry.dir n t ∈ r0 →
        Entry.dir n t ∈ purgedRoot ok r0) ∧
    hasDir (purgedRoot ok r0) "config" = true := by
  refine ⟨?_, ?_, ?_⟩
  · intro n t h
    exact (dir_mem_purgeScan ok n t l).mpr h
  · intro n t hn h
    unfold purgedRoot
    rw [dir_mem_purgeScan, dir_mem_rmLocale]
    exact ⟨dir_mem_ensureConfig_of r0 n t h, hn⟩
  · unfold hasDir
    rw [dirTree_purgedRoot_config]
    rfl

/-- Witness for C9: a stale subdirectory survives the purge. -/
theorem claim_C9_witness :
    Entry.dir "olddata" [("x.py", "old")] ∈ purgedRoot (fun _ => true) staleRoot :=
  (claim_C9 (fun _ => true) [] staleRoot).2.1 "olddata" [("x.py", "old")]
    (by decide) (by decide)

end YwTable

namespace YwTable

/-- Counterexample to Claim C2 as stated: on a root holding a stale
subdirectory `olddata` (whose name does not contain `config`), a run with no
removal failures still completes successfully with the subdirectory left in
place — so not every direct entry whose name does not match a `config` name
has been removed, and a leftover from the previous version remains. -/
theorem claim_C2_counterexample :
    (install "I" envIdeal demoBundle staleRoot).isOk = true ∧
    Entry.dir "olddata" [("x.py", "old")] ∈
      (install "I" envIdeal demoBundle staleRoot).root := by
  constructor
  · decide
  · decide

/-- Claim C2 (amended): after every successful run of `install` with no
removal failures, ProgramFile and LocaleTree in InstallationRoot exactly
equal the bundled versions, and no leftover regular file remains among the
direct entries — every direct regular-file entry whose name does not contain
`config` has been removed before copying, so the only remaining regular files
are config-named ones, the program file and the startup script; directory
entries other than the `locale` subtree are not removed. -/
theorem claim_C2 (d : String) (env : Env) (b : Bundle) (r0 root' : List Entry)
    (tr' : List String) (hok : ∀ m, env.removeOk m = true)
    (h : install d env b r0 = .ok root' tr') :
    (∃ appC, b.appContent = some appC ∧ fileContent root' APP = some appC) ∧
    (∃ lt, b.localeTree = some lt ∧ dirTree root' "locale" = some lt) ∧
    (∀ n c, Entry.file n c ∈ root' →
        hasSub "config" n = true ∨ n = APP ∨ n = START_UP_SCRIPT) := by
  have h' : installCore (hasFile r0 APP) d env b r0 = .ok root' tr' := h
  obtain ⟨appC, lt, happ, hlt, hcfg, h1, h2, h3, hroot, htr⟩ := installCore_ok_char h'
  subst hroot
  refine ⟨⟨appC, happ, ?_⟩, ⟨lt, hlt, ?_⟩, ?_⟩
  · rw [fileContent_setFile_ne _ _ _ _ (by decide : ¬(APP = START_UP_SCRIPT))]
    unfold afterSeedRoot
    rw [fileContent_setConfig]
    unfold copiedRoot
    rw [fileContent_append_dir, fileContent_setFile_self]
  · have hnd : dirTree (setFile (purgedRoot env.removeOk r0) APP appC) "locale" =
        none := by
      refine hasDir_false_dirTree ?_
      have := h2
      unfold hasEntry at this
      exact (Bool.or_eq_false_iff.mp this).2
    rw [dirTree_setFile]
    unfold afterSeedRoot
    rw [dirTree_setConfig_ne _ _ _ (by decide : ¬("locale" = "config"))]
    unfold copiedRoot
    rw [dirTree_append_none hnd]
    simp [dirTree]
  · intro n c hmem
    rcases file_mem_setFile _ _ _ _ _ hmem with ⟨hn, _⟩ | ⟨hmem2, hne⟩
    · exact Or.inr (Or.inr hn)
    · unfold afterSeedRoot at hmem2
      rw [file_mem_setConfig] at hmem2
      unfold copiedRoot at hmem2
      rw [file_mem_append_dir] at hmem2
      rcases file_mem_setFile _ _ _ _ _ hmem2 with ⟨hn, _⟩ | ⟨hmem3, hne2⟩
      · exact Or.inr (Or.inl hn)
      · refine Or.inl ?_
        unfold purgedRoot at hmem3
        rw [file_mem_purgeScan] at hmem3
        rcases hmem3.2 with hc | hfail
        · exact hc
        · rw [hok n] at hfail
          exact absurd hfail (by simp)

/-- Witness for C2 (amended) on a concrete run over a stale root. -/
theorem claim_C2_witness :
    (∃ appC, demoBundle.appContent = some appC ∧
        fileContent (install "I" envIdeal demoBundle staleRoot).root APP =
          some appC) ∧
    (∃ lt, demoBundle.localeTree = some lt ∧
        dirTree (install "I" envIdeal demoBundle staleRoot).root "locale" =
          some lt) ∧
    (∀ n c, Entry.file n c ∈ (install "I" envIdeal demoBundle staleRoot).root →
        hasSub "config" n = true ∨ n = APP ∨ n = START_UP_SCRIPT) :=
  claim_C2 "I" envIdeal demoBundle staleRoot
    (install "I" envIdeal demoBundle staleRoot).root
    (install "I" envIdeal demoBundle staleRoot).trace
    (fun _ => rfl) (by rfl)

/-- Claim C4: a run is classified as update exactly when `{installDir}/{APP}`
exists as a regular file before any file operation; for fixed filesystem
contents, the root state produced and the completion status of `install` are
identical under both classifications — the flag only controls whether the
shortcut help message is appended to the trace. -/
theorem claim_C4 (d : String) (env : Env) (b : Bundle) (r0 : List Entry) :
    (install d env b r0 = installCore (hasFile r0 APP) d env b r0) ∧
    (hasFile r0 APP = true ↔ ∃ c, Entry.file APP c ∈ r0) ∧
    (∀ s1 s2 : Bool,
        (installCore s1 d env b r0).root = (installCore s2 d env b r0).root ∧
        (installCore s1 d env b r0).isOk = (installCore s2 d env b r0).isOk) ∧
    ((installCore false d env b r0).trace = (installCore true d env b r0).trace ∨
      (installCore false d env b r0).trace =
        (installCore true d env b r0).trace ++ [SHORTCUT_MESSAGE d]) := by
  refine ⟨rfl, hasFile_iff_exists r0 APP, ?_, ?_⟩
  · intro s1 s2
    constructor
    · unfold installCore
      split
      · rfl
      · rw [continueInstall_flag_root s1 d env b, continueInstall_flag_root s2 d env b]
    · unfold installCore
      split
      · rfl
      · rw [continueInstall_flag_isOk s1 d env b, continueInstall_flag_isOk s2 d env b]
  · unfold installCore
    split
    · exact Or.inl rfl
    · exact continueInstall_flag_trace d env b (purgedRoot env.removeOk r0)
        (purgedTrace env.removeOk r0)

/-- Claim C6: config seeding — with no environmental copy failure, each
sample file is copied into ConfigDirectory exactly when no file of that name
already exists there; an existing file keeps its content and a `Keeping`
entry is reported, a copy adds the sample content and reports a `Copying`
entry; and an absent sample directory makes the seeding behave exactly as an
empty one while the run continues. -/
theorem claim_C6 :
    (∀ (ok : String → Bool) (fs : List SampleFile) (cfg : List (String × String))
        (tr : List String) (f : SampleFile),
        (∀ g ∈ fs, ok g.name = true) →
        (fs.map SampleFile.name).Nodup →
        f ∈ fs →
        ((∀ c, lookupTree cfg f.name = some c →
            lookupTree (seedLoop ok fs cfg tr).1 f.name = some c ∧
            keepingMsg f.name ∈ (seedLoop ok fs cfg tr).2) ∧
          (lookupTree cfg f.name = none →
            lookupTree (seedLoop ok fs cfg tr).1 f.name = some f.content ∧
            copyingMsg f.name ∈ (seedLoop ok fs cfg tr).2))) ∧
    (∀ (su : Bool) (d : String) (env : Env) (b : Bundle) (r0 : List Entry),
        installCore su d env { b with sample := none } r0 =
          installCore su d env { b with sample := some [] } r0) := by
  constructor
  · exact fun ok fs cfg tr f h1 h2 h3 => seedLoop_mem_spec ok fs cfg tr f h1 h2 h3
  · intro su d env b r0
    unfold installCore
    split
    · rfl
    · exact continueInstall_sample_congr _ _ _ _ _ _ _ rfl rfl (fun _ => rfl)

/-- Witness for C6: a sample file already present in ConfigDirectory is kept
with its old content and reported as kept. -/
theorem claim_C6_witness :
    lookupTree (seedLoop (fun _ => true) [⟨"a.ini", "A"⟩] [("a.ini", "OLD")] []).1
        "a.ini" = some "OLD" ∧
    keepingMsg "a.ini" ∈
      (seedLoop (fun _ => true) [⟨"a.ini", "A"⟩] [("a.ini", "OLD")] []).2 :=
  (claim_C6.1 (fun _ => true) [⟨"a.ini", "A"⟩] [("a.ini", "OLD")] []
    ⟨"a.ini", "A"⟩ (fun g _ => rfl) (by decide) (by decide)).1 "OLD" (by decide)

/-- Claim C10 (implicit): a failure while copying one sample configuration
file aborts the entire seeding — sample files not yet processed are neither
copied into ConfigDirectory nor reported in the trace — while the remaining
install sequence runs exactly as it would with the truncated sample set, so
the success message, the mode-dependent help message and the startup script
still happen. -/
theorem claim_C10 (su : Bool) (d : String) (env : Env) (b : Bundle)
    (r0 : List Entry) (pre post : List SampleFile) (f : SampleFile)
    (hs : b.sample = some (pre ++ f :: post))
    (hpre : ∀ g ∈ pre, env.sampleCopyOk g.name = true)
    (hfresh : f.name ∉ pre.map SampleFile.name)
    (habsent : lookupTree ((dirTree r0 "config").getD []) f.name = none)
    (hfail : env.sampleCopyOk f.name = false) :
    installCore su d env b r0 = installCore su d env { b with sample := some pre } r0 := by
  unfold installCore
  split
  · rfl
  · refine continueInstall_sample_congr _ _ _ _ _ _ _ rfl rfl ?_
    intro tr2
    unfold seedResult
    rw [hs, show ({ b with sample := some pre } : Bundle).sample = some pre from rfl]
    show seedLoop env.sampleCopyOk (pre ++ f :: post)
        ((dirTree (purgedRoot env.removeOk r0) "config").getD []) tr2 =
      seedLoop env.sampleCopyOk pre
        ((dirTree (purgedRoot env.removeOk r0) "config").getD []) tr2
    refine seedLoop_abort env.sampleCopyOk f post hfail pre _ tr2 hpre ?_ hfresh
    rw [dirTree_purgedRoot_config]
    simp only [Option.getD_some]
    exact habsent

/-- Witness for C10 at a concrete failing sample file. -/
theorem claim_C10_witness :
    installCore false "I" envBadSample bundleBadSample [] =
      installCore false "I" envBadSample
        { bundleBadSample with sample := some [⟨"a.ini", "A1"⟩] } [] :=
  claim_C10 false "I" envBadSample bundleBadSample [] [⟨"a.ini", "A1"⟩]
    [⟨"c.ini", "C"⟩] ⟨"bad.ini", "B"⟩ rfl (by decide) (by decide) (by decide)
    (by decide)

set_option maxRecDepth 16384

/-- Counterexample to Claim C8 as stated: in the fresh-install scenario with
one program file, one locale file and one sample configuration file, the
resulting trace holds the three copy reports followed by the success and
shortcut messages only — no copy action for the startup script is ever
reported, because lines 151-157 write the script without calling `output`. -/
theorem claim_C8_counterexample :
    (runInstaller "I" envIdeal demoBundle []).trace =
      [copyingMsg APP, copyingMsg "locale", copyingMsg "config.ini",
        SUCCESS_MESSAGE "I", SHORTCUT_MESSAGE "I"] ∧
    copyingMsg START_UP_SCRIPT ∉ (runInstaller "I" envIdeal demoBundle []).trace := by
  constructor
  · decide
  · decide

/-- Claim C8 (amended): fresh-install trace contents — for a run on an empty
target root with a bundle containing the program file, a locale directory
with one file and one sample config file, the resulting trace is exactly the
copy reports for the program file, the locale tree and the sample config
file, followed by the success message and the shortcut help message, in the
order the actions occurred; it contains no `Keeping` entry and no entry for
the startup script, which is written without being reported. -/
theorem claim_C8 :
    (runInstaller "I" envIdeal demoBundle []).trace =
      [copyingMsg APP, copyingMsg "locale", copyingMsg "config.ini",
        SUCCESS_MESSAGE "I", SHORTCUT_MESSAGE "I"] ∧
    (∀ e ∈ (runInstaller "I" envIdeal demoBundle []).trace,
        hasSub "Keeping" e = false) := by
  constructor
  · decide
  · decide

end YwTable
